import Mathlib

/-!
A shallow embedding of the InfoPulse AI data-cleaning pipeline
(`backend/data_processor.py` and `backend/main.py`).

Frames are column-major tables.  Each pandas column carries one dtype, so a
column is a tagged list of cells: `obj` (Python object/str dtype, missing
cells are `none`, mirroring NaN), `num` (float dtype, `none` is NaN) and
`date` (datetime64, `none` is NaT).  Dates are stored as opaque integers
(the pipeline never computes with date values).

External libraries are modelled as follows.
* `pd.to_numeric` / `float(...)` is a decimal parser (sign, digits, optional
  fractional part); exotic numeric spellings (exponents, underscores) are not
  modelled, and no claim depends on them.
* The generic `pd.to_datetime` parse is modelled as ISO `yyyy-mm-dd`, the
  `dayfirst` retry as `dd-mm-yyyy` / `dd/mm/yyyy`, followed by the six
  explicit formats of `smart_parse_dates`.  No claim depends on which date
  strings parse; the claims only use the column-level behaviour.
* `re` is modelled by a small backtracking matcher over sequences of greedily
  quantified character classes, which is exactly the shape of the two PII
  patterns and of the number pattern of `interpret_natural_language`.
* `difflib.SequenceMatcher.ratio` is implemented directly
  (Ratcliff-Obershelp; the autojunk heuristic only fires on sequences of
  200+ elements, far beyond the cell values handled here).  The float
  comparison `ratio > 0.75` is the exact rational comparison `8*M > 3*T`
  (0.75 is exactly representable; a rounding flip would need astronomically
  long strings).
* `StandardScaler` + `IsolationForest.fit_predict` is an opaque parameter
  `detector : List (List ℚ) → List Bool` (`true` = prediction -1/outlier):
  the pipeline only consumes the vector of per-row flags, and sklearn
  guarantees one flag per input row, which theorems take as the hypothesis
  `(d m).length = m.length`.
* Python floats are modelled as exact rationals.  `round(q, 2)` is modelled
  with Mathlib's `round` (half-up instead of the banker's tie-break; no
  claim depends on ties).  The numpy quirk that `np.int64(0)/0` is NaN (so
  both `nan < 0.4` and `nan > 0.4` are false on a 0-row frame) is modelled
  by `ratioLt40` / `ratioGt40` returning `false` when the row count is 0.
-/

namespace InfoPulse

set_option maxRecDepth 10000

/-! ## Python string primitives -/

/-- Strip leading and trailing whitespace from a character list. -/
def stripChars (cs : List Char) : List Char :=
  ((cs.dropWhile Char.isWhitespace).reverse.dropWhile Char.isWhitespace).reverse

/-- Python `str.strip()` (whitespace trim). -/
def pyStrip (s : String) : String := ⟨stripChars s.toList⟩

/-- Core of Python `str.title()`: a letter is uppercased when the previous
character is not a letter, lowercased otherwise. -/
def pyTitleAux : Bool → List Char → List Char
  | _, [] => []
  | prevAlpha, c :: cs =>
    (if c.isAlpha then (if prevAlpha then c.toLower else c.toUpper) else c) ::
      pyTitleAux c.isAlpha cs

/-- Python `str.title()` (ASCII). -/
def pyTitle (s : String) : String := ⟨pyTitleAux false s.toList⟩

/-- Python `str.lower()`. -/
def pyLower (s : String) : String := ⟨s.toList.map Char.toLower⟩

/-- Substring test on character lists (Python `in` for strings). -/
def containsSub : List Char → List Char → Bool
  | hay, needle =>
    match hay with
    | [] => needle.isEmpty
    | _ :: t => needle.isPrefixOf hay || containsSub t needle

/-- Python `needle in hay` for strings. -/
def strContains (hay needle : String) : Bool := containsSub hay.toList needle.toList

/-- Python `str.split()` with no argument: split on whitespace runs,
dropping empty tokens. -/
def pySplitAux : List Char → List Char → List String
  | [], acc => if acc.isEmpty then [] else [⟨acc.reverse⟩]
  | c :: t, acc =>
    if c.isWhitespace then
      if acc.isEmpty then pySplitAux t [] else ⟨acc.reverse⟩ :: pySplitAux t []
    else pySplitAux t (c :: acc)

def pySplit (s : String) : List String := pySplitAux s.toList []

/-! ## A small regex engine

The two PII patterns and the numeric-literal pattern are alternations of
sequences of greedily quantified single-character classes, so the matcher
works on `List RItem` (one quantified class per item) and tries repeat
counts from the greedy maximum downwards, which is Python `re` backtracking
order for these patterns. -/

/-- One quantified character class: between `lo` and `hi` (`none` =
unbounded) repetitions of a character satisfying `cls`. -/
structure RItem where
  cls : Char → Bool
  lo : Nat
  hi : Option Nat

/-- Length of the longest run of characters satisfying `p` at the head. -/
def maxRun (p : Char → Bool) : List Char → Nat
  | [] => 0
  | c :: t => if p c then maxRun p t + 1 else 0

/-- Try consuming `k, k-1, ..., lo` characters, continuing with `f`;
first success wins (greedy backtracking). -/
def tryKs (f : List Char → Option Nat) (s : List Char) (lo : Nat) : Nat → Option Nat
  | 0 =>
    if lo = 0 then (f s).map (fun m => m) else none
  | k + 1 =>
    if k + 1 < lo then none
    else
      match f (s.drop (k + 1)) with
      | some m => some (k + 1 + m)
      | none => tryKs f s lo k

/-- Match a sequence of quantified classes at the head of `s`, returning the
number of characters consumed by the first (greediest) successful parse. -/
def matchSeq : List RItem → List Char → Option Nat
  | [], _ => some 0
  | it :: rest, s =>
    let r := maxRun it.cls s
    let hi := match it.hi with | some h => min r h | none => r
    tryKs (matchSeq rest) s it.lo hi

/-- Try the alternatives of a pattern in order (Python `|`). -/
def matchAlts (alts : List (List RItem)) (s : List Char) : Option Nat :=
  match alts with
  | [] => none
  | a :: t =>
    match matchSeq a s with
    | some n => some n
    | none => matchAlts t s

/-- Python `re.sub`: scan left to right, replacing each leftmost
non-overlapping match (all patterns here match at least one character). -/
def reSubGo (alts : List (List RItem)) (repl : List Char → List Char) :
    Nat → List Char → List Char
  | _, [] => []
  | 0, s => s
  | fuel + 1, c :: t =>
    match matchAlts alts (c :: t) with
    | some (n + 1) => repl ((c :: t).take (n + 1)) ++ reSubGo alts repl fuel ((c :: t).drop (n + 1))
    | _ => c :: reSubGo alts repl fuel t

def reSub (alts : List (List RItem)) (repl : List Char → List Char) (s : String) : String :=
  ⟨reSubGo alts repl s.length s.toList⟩

/-- Python `re.search`-style containment (`str.contains` in pandas). -/
def reFindGo (alts : List (List RItem)) : Nat → List Char → Bool
  | _, [] => (matchAlts alts []).isSome
  | 0, _ => false
  | fuel + 1, c :: t => (matchAlts alts (c :: t)).isSome || reFindGo alts fuel t

def reContains (alts : List (List RItem)) (s : String) : Bool :=
  reFindGo alts (s.length + 1) s.toList

/-- Python `re.findall`: the list of leftmost non-overlapping matches. -/
def reFindAllGo (alts : List (List RItem)) : Nat → List Char → List (List Char)
  | _, [] => []
  | 0, _ => []
  | fuel + 1, c :: t =>
    match matchAlts alts (c :: t) with
    | some (n + 1) => (c :: t).take (n + 1) :: reFindAllGo alts fuel ((c :: t).drop (n + 1))
    | _ => reFindAllGo alts fuel t

def reFindAll (alts : List (List RItem)) (s : String) : List String :=
  (reFindAllGo alts s.length s.toList).map (fun cs => ⟨cs⟩)

/-! ### The source's patterns -/

/-- `EMAIL_PATTERN = r'[a-zA-Z0-9._%+-]+@[a-zA-Z0-9.-]+\.[a-zA-Z]{2,}'` -/
def emailLocalCls (c : Char) : Bool :=
  c.isAlphanum || c = '.' || c = '_' || c = '%' || c = '+' || c = '-'

def emailDomainCls (c : Char) : Bool := c.isAlphanum || c = '.' || c = '-'

def emailItems : List RItem :=
  [⟨emailLocalCls, 1, none⟩, ⟨(· = '@'), 1, some 1⟩, ⟨emailDomainCls, 1, none⟩,
   ⟨(· = '.'), 1, some 1⟩, ⟨Char.isAlpha, 2, none⟩]

def emailAlts : List (List RItem) := [emailItems]

/-- `PHONE_PATTERN = r'(?:\+\d{1,2}\s?)?\(?\d{3}\)?[\s.-]?\d{3}[\s.-]?\d{4}'`.
The optional country-code group is expanded into two alternatives
(group present first), which is the same backtracking order. -/
def phoneSepCls (c : Char) : Bool := c.isWhitespace || c = '.' || c = '-'

def phoneCore : List RItem :=
  [⟨(· = '('), 0, some 1⟩, ⟨Char.isDigit, 3, some 3⟩, ⟨(· = ')'), 0, some 1⟩,
   ⟨phoneSepCls, 0, some 1⟩, ⟨Char.isDigit, 3, some 3⟩, ⟨phoneSepCls, 0, some 1⟩,
   ⟨Char.isDigit, 4, some 4⟩]

def phoneWithCc : List RItem :=
  ⟨(· = '+'), 1, some 1⟩ :: ⟨Char.isDigit, 1, some 2⟩ :: ⟨Char.isWhitespace, 0, some 1⟩ :: phoneCore

def phoneAlts : List (List RItem) := [phoneWithCc, phoneCore]

/-- Python `str.split(sep)` on a single character (keeps empty chunks). -/
def splitOnChar (sep : Char) : List Char → List (List Char)
  | [] => [[]]
  | c :: t =>
    let rest := splitOnChar sep t
    if c = sep then [] :: rest
    else
      match rest with
      | [] => [[c]]
      | h :: r => (c :: h) :: r

/-- The email replacement `m.group(0)[0] + "***@" + m.group(0).split('@')[1]`. -/
def emailRepl (m : List Char) : List Char :=
  m.take 1 ++ "***@".toList ++ ((splitOnChar '@' m).getD 1 [])

/-- The phone replacement: the fixed-length redaction `"********"`. -/
def phoneRepl (_ : List Char) : List Char := "********".toList

/-- `r"[-+]?\d*\.\d+|\d+"` of `interpret_natural_language`. -/
def signCls (c : Char) : Bool := c = '-' || c = '+'

def numberAlts : List (List RItem) :=
  [[⟨signCls, 0, some 1⟩, ⟨Char.isDigit, 0, none⟩, ⟨(· = '.'), 1, some 1⟩, ⟨Char.isDigit, 1, none⟩],
   [⟨Char.isDigit, 1, none⟩]]

/-! ## Numeric and date parsing -/

def digitsToNat (ds : List Char) : Nat :=
  ds.foldl (fun a c => a * 10 + (c.toNat - 48)) 0

/-- `pd.to_numeric` / Python `float` on a single string: optional sign,
digits, optional fractional part (see the header note). -/
def parseRat (s : String) : Option ℚ :=
  let cs := s.toList
  let sign : Bool × List Char :=  -- `true` marks a leading minus
    match cs with
    | '-' :: t => (true, t)
    | '+' :: t => (false, t)
    | _ => (false, cs)
  let ip := sign.2.takeWhile Char.isDigit
  let rest := sign.2.dropWhile Char.isDigit
  match rest with
  | [] =>
    -- integer case, written without `ℚ` arithmetic (same value)
    if ip.isEmpty then none
    else some (if sign.1 then -(digitsToNat ip : ℚ) else (digitsToNat ip : ℚ))
  | '.' :: fp =>
    if fp.all Char.isDigit && !(ip.isEmpty && fp.isEmpty) then
      some ((if sign.1 then (-1 : ℚ) else 1) *
        ((digitsToNat ip : ℚ) + (digitsToNat fp : ℚ) / (10 ^ fp.length : ℚ)))
    else none
  | _ => none

def currencyChars : List Char := ['₹', '$', '€', '£', ',']

/-- `clean_currency_value` followed by the `pd.to_numeric` re-parse:
lowercase, strip, drop currency symbols and thousands separators; a `k`
suffix multiplies by 1000 (Python `float` strips whitespace, hence the
extra trim in the `k` branch). `NaN` in, `NaN` out. -/
def clean_currency_parse (s : String) : Option ℚ :=
  let t := (pyStrip (pyLower s)).toList.filter (fun c => !(currencyChars.contains c))
  if t.contains 'k' then
    (parseRat ⟨stripChars (t.filter (· ≠ 'k'))⟩).map (· * 1000)
  else parseRat ⟨t⟩

/-- Dates are stored as `y*10000 + m*100 + d` after a plausibility check
(`pd.to_datetime` rejects out-of-range components). -/
def mkDate (y m d : Nat) : Option Int :=
  if 1 ≤ m && m ≤ 12 && 1 ≤ d && d ≤ 31 then some ((y * 10000 + m * 100 + d : Nat) : Int)
  else none

def allDigits (cs : List Char) : Bool := !cs.isEmpty && cs.all Char.isDigit

def splitOnCharStr (sep : Char) (s : String) : List (List Char) := splitOnChar sep s.toList

def parseYMD (sep : Char) (s : String) : Option Int :=
  match splitOnCharStr sep s with
  | [y, m, d] =>
    if y.length = 4 && allDigits y && allDigits m && m.length ≤ 2 && allDigits d && d.length ≤ 2 then
      mkDate (digitsToNat y) (digitsToNat m) (digitsToNat d)
    else none
  | _ => none

def parseDMY (sep : Char) (s : String) : Option Int :=
  match splitOnCharStr sep s with
  | [d, m, y] =>
    if y.length = 4 && allDigits y && allDigits m && m.length ≤ 2 && allDigits d && d.length ≤ 2 then
      mkDate (digitsToNat y) (digitsToNat m) (digitsToNat d)
    else none
  | _ => none

def parseMDY (sep : Char) (s : String) : Option Int :=
  match splitOnCharStr sep s with
  | [m, d, y] =>
    if y.length = 4 && allDigits y && allDigits m && m.length ≤ 2 && allDigits d && d.length ≤ 2 then
      mkDate (digitsToNat y) (digitsToNat m) (digitsToNat d)
    else none
  | _ => none

def monthAbbrevs : List String :=
  ["jan", "feb", "mar", "apr", "may", "jun", "jul", "aug", "sep", "oct", "nov", "dec"]

/-- `%b`: case-insensitive three-letter month abbreviation, 1-based. -/
def parseMonthAbbrev (cs : List Char) : Option Nat :=
  let low := pyLower ⟨cs⟩
  match monthAbbrevs.indexOf? low with
  | some i => some (i + 1)
  | none => none

/-- `'%b %d %Y'` -/
def parseBdY (s : String) : Option Int :=
  match splitOnCharStr ' ' s with
  | [b, d, y] =>
    match parseMonthAbbrev b with
    | some m =>
      if y.length = 4 && allDigits y && allDigits d && d.length ≤ 2 then
        mkDate (digitsToNat y) m (digitsToNat d)
      else none
    | none => none
  | _ => none

/-- `'%d-%b-%Y'` -/
def parseDbY (s : String) : Option Int :=
  match splitOnCharStr '-' s with
  | [d, b, y] =>
    match parseMonthAbbrev b with
    | some m =>
      if y.length = 4 && allDigits y && allDigits d && d.length ≤ 2 then
        mkDate (digitsToNat y) m (digitsToNat d)
      else none
    | none => none
  | _ => none

/-- The cell-level cascade of `smart_parse_dates`: generic parse, then the
day-first retry, then the fixed format list, each applied only to cells the
previous attempts left unparsed (per-cell this is a first-success cascade). -/
def parseDateCascade (s : String) : Option Int :=
  (parseYMD '-' s).orElse fun _ =>
  ((parseDMY '-' s).orElse fun _ => (parseDMY '/' s)).orElse fun _ =>
  (parseDMY '-' s).orElse fun _ =>
  (parseMDY '-' s).orElse fun _ =>
  (parseYMD '/' s).orElse fun _ =>
  (parseDMY '/' s).orElse fun _ =>
  (parseBdY s).orElse fun _ =>
  parseDbY s

/-! ## Sorting helpers and the median -/

/-- Insert into an ascending sorted list of rationals. -/
def insortQ (x : ℚ) : List ℚ → List ℚ
  | [] => [x]
  | y :: ys => if x ≤ y then x :: y :: ys else y :: insortQ x ys

def sortQ (l : List ℚ) : List ℚ := l.foldr insortQ []

/-- `Series.median()`: `none` on an empty list (pandas NaN). -/
def median (l : List ℚ) : Option ℚ :=
  let s := sortQ l
  let n := s.length
  if n = 0 then none
  else if n % 2 = 1 then some (s.getD (n / 2) 0)
  else some ((s.getD (n / 2 - 1) 0 + s.getD (n / 2) 0) / 2)

/-! ## difflib.SequenceMatcher -/

/-- Length of the common prefix. -/
def comPre : List Char → List Char → Nat
  | a :: as, b :: bs => if a = b then comPre as bs + 1 else 0
  | _, _ => 0

/-- `find_longest_match` over the whole strings: maximal size, ties broken
by the earliest start in `a`, then in `b` (no junk: autojunk needs 200+
characters).  Returns `(size, i, j)`. -/
def longestMatch (a b : List Char) : Nat × Nat × Nat :=
  (List.range a.length).foldl
    (fun acc i =>
      (List.range b.length).foldl
        (fun acc2 j =>
          let sz := comPre (a.drop i) (b.drop j)
          if sz > acc2.1 then (sz, i, j) else acc2)
        acc)
    (0, 0, 0)

/-- Total size of all matching blocks (Ratcliff-Obershelp recursion). -/
def smMatches : Nat → List Char → List Char → Nat
  | 0, _, _ => 0
  | fuel + 1, a, b =>
    let m := longestMatch a b
    if m.1 = 0 then 0
    else
      smMatches fuel (a.take m.2.1) (b.take m.2.2) + m.1 +
        smMatches fuel (a.drop (m.2.1 + m.1)) (b.drop (m.2.2 + m.1))

/-- `SequenceMatcher(None, x, y).ratio() > 0.75`, i.e. `2M/T > 3/4`, i.e.
`8M > 3T` exactly (both strings empty cannot occur: the two values compared
by `smart_text_correction` are distinct). -/
def smRatioGtThreshold (x y : String) : Bool :=
  let a := x.toList
  let b := y.toList
  8 * smMatches (a.length + b.length + 1) a b > 3 * (a.length + b.length)

/-! ## The data model: column-major frames -/

/-- A cell value as compared by row-level operations (`drop_duplicates`):
pandas treats NaN as equal to NaN there, which `Option` equality gives. -/
inductive CellV where
  | vs (x : Option String)
  | vn (x : Option ℚ)
  | vd (x : Option Int)
deriving DecidableEq, Repr

/-- One pandas column: a dtype tag, a name and the cells. -/
inductive Col where
  | obj (name : String) (cells : List (Option String))
  | num (name : String) (cells : List (Option ℚ))
  | date (name : String) (cells : List (Option Int))
deriving DecidableEq, Repr

def Col.name : Col → String
  | .obj n _ => n
  | .num n _ => n
  | .date n _ => n

def Col.len : Col → Nat
  | .obj _ cs => cs.length
  | .num _ cs => cs.length
  | .date _ cs => cs.length

def Col.cellAt : Col → Nat → CellV
  | .obj _ cs, i => .vs (cs.getD i none)
  | .num _ cs, i => .vn (cs.getD i none)
  | .date _ cs, i => .vd (cs.getD i none)

/-- Keep the cells at the given row indices (in that order). -/
def Col.select : Col → List Nat → Col
  | .obj n cs, idx => .obj n (idx.map (fun i => cs.getD i none))
  | .num n cs, idx => .num n (idx.map (fun i => cs.getD i none))
  | .date n cs, idx => .date n (idx.map (fun i => cs.getD i none))

abbrev Frame := List Col

/-- `len(df)`: pandas row count (all columns share it; modelled from the
first column). -/
def numRows : Frame → Nat
  | [] => 0
  | c :: _ => c.len

/-- All columns carry the frame's row count (the §3 Frame invariant). -/
def Aligned (f : Frame) : Prop := ∀ c ∈ f, c.len = numRows f

/-! ## Stage 1: text normalization (`process_dataset` lines 253-256)

`df[col].astype(str)` renders a missing cell as the string `"nan"`, which
`.str.title()` turns into `"Nan"` and the replacement map into
`"Unknown"`; so `none → some "Unknown"` is the faithful missing-cell path. -/

/-- The literal replacement map of line 256 (pandas `Series.replace` with a
dict matches entire cell values). -/
def normReplace (s : String) : String :=
  if s = "Nan" then "Unknown"
  else if s = "None" then "Unknown"
  else if s = "Na" then "Unknown"
  else if s = "Pc" then "Piece"
  else if s = "N/A" then "Unknown"
  else s

def normCell (c : Option String) : Option String :=
  some (normReplace (pyTitle (pyStrip (c.getD "nan"))))

def textNormCol : Col → Col
  | .obj n cs => .obj n (cs.map normCell)
  | c => c

def textNormStage (f : Frame) : Frame := f.map textNormCol

/-! ## Stage 2: numeric coercion (`process_dataset` lines 258-267) -/

/-- `notna/len < 0.40` with numpy semantics: on a 0-row frame the ratio is
NaN and the comparison is false. -/
def ratioLt40 (cnt len : Nat) : Bool := len ≠ 0 && 5 * cnt < 2 * len

/-- `notna/len > 0.40`, false on a 0-row frame (NaN comparison). -/
def ratioGt40 (cnt len : Nat) : Bool := len ≠ 0 && 5 * cnt > 2 * len

/-- One column of the coercion loop; the second component records whether
the `Smart-Parsed` log fires (the currency-recovery branch succeeded). -/
def coerceCol (nrows : Nat) : Col → Col × Bool
  | .obj n cs =>
    let t := cs.map (fun s => s.bind parseRat)
    let cnt := t.countP (·.isSome)
    if ratioLt40 cnt nrows then
      let t2 := cs.map (fun s => s.bind clean_currency_parse)
      let cnt2 := t2.countP (·.isSome)
      if ratioGt40 cnt2 nrows then (.num n t2, true)
      else (.obj n cs, false)
    else if ratioGt40 cnt nrows then (.num n t, false)
    else (.obj n cs, false)
  | c => (c, false)

def coerceFrame (f : Frame) : Frame := f.map (fun c => (coerceCol (numRows f) c).1)

def coerceLogs (f : Frame) : List String :=
  f.filterMap (fun c =>
    if (coerceCol (numRows f) c).2 then some ("Smart-Parsed '" ++ c.name ++ "' as Numeric")
    else none)

/-! ## Stage 3: fuzzy text correction (`smart_text_correction`) -/

/-- Non-null values, in row order. -/
def presentVals (cells : List (Option String)) : List String := cells.filterMap id

/-- Distinct values in order of first appearance. -/
def firstAppearDedup : List String → List String
  | [] => []
  | v :: t => v :: (firstAppearDedup t).filter (· ≠ v)

/-- Stable insertion (descending by count) for `value_counts()`. -/
def insByCount (x : String × Nat) : List (String × Nat) → List (String × Nat)
  | [] => [x]
  | y :: ys => if x.2 ≥ y.2 then x :: y :: ys else y :: insByCount x ys

def sortByCountDesc : List (String × Nat) → List (String × Nat)
  | [] => []
  | x :: xs => insByCount x (sortByCountDesc xs)

/-- `Series.value_counts()`: distinct non-null values with their counts,
sorted by count descending (stable; the examples used below have no ties,
so the tie order never matters). -/
def value_counts (cells : List (Option String)) : List (String × Nat) :=
  let vs := presentVals cells
  sortByCountDesc ((firstAppearDedup vs).map (fun v => (v, vs.count v)))

/-- The inner-loop condition for the ordered pair `(val1, val2)`. -/
def fuzzyPairOk (v1 : String) (c1 : Nat) (p : String × Nat) : Bool :=
  p.1 ≠ v1 && smRatioGtThreshold (pyLower v1) (pyLower p.1) && p.2 > 2 * c1

/-- `corrections[val1]`: the last qualifying `val2` wins (dict assignment
in the inner loop overwrites). -/
def correctionFor (vcs : List (String × Nat)) (v1 : String) (c1 : Nat) : Option String :=
  ((vcs.filter (fuzzyPairOk v1 c1)).getLast?).map (·.1)

/-- The `corrections` dict of one column, as an association list keyed by
`val1` (keys are distinct values, hence unique). -/
def correctionsOf (vcs : List (String × Nat)) : List (String × String) :=
  vcs.filterMap (fun p => (correctionFor vcs p.1 p.2).map (fun v2 => (p.1, v2)))

/-- The high-cardinality skip `df[col].nunique() > len(df) * 0.9`, exact. -/
def fuzzySkip (nrows : Nat) (cells : List (Option String)) : Bool :=
  10 * (value_counts cells).length > 9 * nrows

/-- `Series.replace(corrections)`: one simultaneous, non-chained pass. -/
def applyCorrections (corrs : List (String × String)) (cells : List (Option String)) :
    List (Option String) :=
  cells.map (fun cv => cv.map (fun s => (((corrs.find? (fun pr => pr.1 = s)).map (·.2)).getD s)))

def fuzzyCol (nrows : Nat) : Col → Col
  | .obj n cells =>
    if fuzzySkip nrows cells then .obj n cells
    else .obj n (applyCorrections (correctionsOf (value_counts cells)) cells)
  | c => c

/-- The log entries of one column, appended pair by pair; the dedup guard
compares the probe `"Auto-Corrected '<val1>'"` against whole log entries
(Python `in` on a list), so it never matches a full entry. -/
def fuzzyColLogs (colName : String) (vcs : List (String × Nat)) (logs : List String) :
    List String :=
  vcs.foldl
    (fun acc p =>
      ((vcs.filter (fuzzyPairOk p.1 p.2)).map (·.1)).foldl
        (fun acc2 v2 =>
          if acc2.contains ("Auto-Corrected '" ++ p.1 ++ "'") then acc2
          else acc2 ++ ["Auto-Corrected '" ++ p.1 ++ "' to '" ++ v2 ++ "' in " ++ colName])
        acc)
    logs

/-- `smart_text_correction(df, logs)`: returns the new frame and the
extended log list. -/
def smart_text_correction (f : Frame) (logs : List String) : Frame × List String :=
  (f.map (fuzzyCol (numRows f)),
   f.foldl
     (fun acc c =>
       match c with
       | .obj n cells => if fuzzySkip (numRows f) cells then acc
                         else fuzzyColLogs n (value_counts cells) acc
       | _ => acc)
     logs)

/-! ## Stage 4: date parsing and imputation (`process_dataset` lines 271-279) -/

def nameHasDateTime (n : String) : Bool :=
  strContains (pyLower n) "date" || strContains (pyLower n) "time"

/-- `smart_parse_dates` at column level.  An object column is parsed
cell-wise through the cascade; a numeric column fed to `pd.to_datetime` is
read as epochs (modelled as the floor; no claim depends on the value); a
datetime column is unchanged. -/
def smart_parse_dates : Col → Col
  | .obj n cs => .date n (cs.map (fun s => s.bind parseDateCascade))
  | .num n cs => .date n (cs.map (Option.map Int.floor))
  | .date n cs => .date n cs

/-- The date half of the loop body. -/
def dateOnlyCol (c : Col) : Col :=
  if nameHasDateTime c.name then smart_parse_dates c else c

/-- The imputation half: numeric columns with missing cells are filled with
the median, or 0 when the median is itself NaN. -/
def imputeOnlyCol : Col → Col
  | .num n cs =>
    if cs.any (·.isNone) then
      let m := (median (cs.filterMap id)).getD 0
      .num n (cs.map (fun x => some (x.getD m)))
    else .num n cs
  | c => c

/-- One iteration of the source loop: the date branch runs first and the
numeric check then sees the updated column. -/
def dateImputeCol (c : Col) : Col := imputeOnlyCol (dateOnlyCol c)

def dateImputeFrame (f : Frame) : Frame := f.map dateImputeCol

def dateImputeLogs (f : Frame) : List String :=
  f.filterMap (fun c =>
    if nameHasDateTime c.name then some ("Formatted " ++ c.name ++ " to DateTime") else none)

/-! ## Stage 5: deduplication (lines 281-283) -/

def rowAt (f : Frame) (i : Nat) : List CellV := f.map (fun c => c.cellAt i)

/-- Indices of rows kept by `drop_duplicates` (first occurrences, order
preserved). -/
def keepIdxs (f : Frame) : List Nat :=
  (List.range (numRows f)).filter
    (fun i => (List.range i).all (fun j => decide (rowAt f j ≠ rowAt f i)))

def selectRows (f : Frame) (idx : List Nat) : Frame := f.map (fun c => c.select idx)

def dedupStage (f : Frame) : Frame × Nat :=
  (selectRows f (keepIdxs f), numRows f - (keepIdxs f).length)

/-! ## Stage 6: PII masking (`detect_and_mask_pii`) -/

/-- `astype(str)` on one cell (`NaN → "nan"`). -/
def cellAsStr (c : Option String) : String := c.getD "nan"

/-- One column: the email pass, then the phone pass over the updated cells;
only cells whose rendering contains a match are rewritten. -/
def piiMaskCol : Col → Col × Nat
  | .obj n cs =>
    let hit1 := fun cv => reContains emailAlts (cellAsStr cv)
    let cs1 := cs.map (fun cv => if hit1 cv then some (reSub emailAlts emailRepl (cellAsStr cv)) else cv)
    let cnt1 := cs.countP hit1
    let hit2 := fun cv => reContains phoneAlts (cellAsStr cv)
    let cs2 := cs1.map (fun cv => if hit2 cv then some (reSub phoneAlts phoneRepl (cellAsStr cv)) else cv)
    let cnt2 := cs1.countP hit2
    (.obj n cs2, cnt1 + cnt2)
  | c => (c, 0)

def detect_and_mask_pii (f : Frame) : Frame × Nat :=
  (f.map (fun c => (piiMaskCol c).1), (f.map (fun c => (piiMaskCol c).2)).sum)

/-- Lines 285-288: the stage runs only when `mask_pii` is set. -/
def piiStage (maskPii : Bool) (f : Frame) : Frame × Nat :=
  if maskPii then detect_and_mask_pii f else (f, 0)

/-! ## Stage 7: anomaly detection (lines 290-308) -/

def numericColNames (f : Frame) : List String :=
  f.filterMap (fun c => match c with | .num n _ => some n | _ => none)

/-- Ascending dedup sort of the label classes (`LabelEncoder` sorts the
distinct rendered strings). -/
def insStr (x : String) : List String → List String
  | [] => [x]
  | y :: ys => if x ≤ y then (if x = y then y :: ys else x :: y :: ys) else y :: insStr x ys

def sortedClasses (l : List String) : List String := l.foldr insStr []

/-- `LabelEncoder().fit_transform(df[col].astype(str))` on an object
column; other dtypes are left alone (`category` does not arise here). -/
def labelEncodeCol : Col → Col
  | .obj n cs =>
    let strs := cs.map cellAsStr
    let classes := sortedClasses strs
    .num n (strs.map (fun s => some ((classes.indexOf s : Nat) : ℚ)))
  | c => c

/-- `df_for_ai.fillna(0)` on the numeric columns (datetime columns carry no
features and are left alone). -/
def fillna0Col : Col → Col
  | .num n cs => .num n (cs.map (fun x => some (x.getD 0)))
  | c => c

/-- Cells of the first column with the given name, as selected by
`df_for_ai[numeric_cols_model]`. -/
def lookupNumCells (f : Frame) (n : String) : List (Option ℚ) :=
  match f.find? (fun c => c.name = n) with
  | some (.num _ cs) => cs
  | _ => []

/-- The standardized-and-scored matrix handed to the detector: the rows of
`df_for_ai[numeric_cols_model]` after label encoding and `fillna(0)`
(scaling and the forest live inside the opaque detector). -/
def featureMatrix (f : Frame) : List (List ℚ) :=
  let ai := (f.map labelEncodeCol).map fillna0Col
  let sel := (numericColNames f).map (lookupNumCells ai)
  (List.range (numRows f)).map (fun i => sel.map (fun cs => (cs.getD i (some 0)).getD 0))

/-- The per-row outlier flags: `true` models prediction `-1`. -/
abbrev Detector := List (List ℚ) → List Bool

/-- Lines 297-308: when at least one numeric column exists, score, drop the
flagged rows and report the count of `-1` predictions; otherwise the frame
passes through and the count is 0. -/
def anomalyStage (d : Detector) (f : Frame) : Frame × Nat :=
  if (numericColNames f).isEmpty then (f, 0)
  else
    let preds := d (featureMatrix f)
    let keep := (List.range (numRows f)).filter (fun i => !(preds.getD i false))
    (selectRows f keep, preds.count true)

/-! ## Correlation matrix (`get_correlation_matrix`)

A Pearson correlation is `S_xy / sqrt(S_xx * S_yy)`, which is irrational in
general, so a triple's value is represented exactly as the pair
`(S_xy, S_xx * S_yy)` (the represented real is `S_xy / sqrt(S_xx * S_yy)`),
and `none` is pandas NaN (no complete pair, or a zero variance: pandas puts
NaN there, including on the diagonal of a constant column).  The `round(2)`
of the source is not applied to this representation: the claims compare
values for equality, for being exactly 1.0 and for being NaN, all of which
rounding preserves. -/

structure CorrTriple where
  x : String
  y : String
  value : Option (ℚ × ℚ)
deriving DecidableEq, Repr

/-- Pairwise-complete observations (pandas drops a pair when either side is
missing), walking the two aligned columns together. -/
def pearsonPairs : List (Option ℚ) → List (Option ℚ) → List (ℚ × ℚ)
  | some a :: t, some b :: u => (a, b) :: pearsonPairs t u
  | _ :: t, _ :: u => pearsonPairs t u
  | _, _ => []

def meanFst (ps : List (ℚ × ℚ)) : ℚ := (ps.map Prod.fst).sum / ps.length

def meanSnd (ps : List (ℚ × ℚ)) : ℚ := (ps.map Prod.snd).sum / ps.length

/-- Centered cross-product sum `Σ (x - x̄)(y - ȳ)`. -/
def sXY (ps : List (ℚ × ℚ)) : ℚ :=
  (ps.map (fun p => (p.1 - meanFst ps) * (p.2 - meanSnd ps))).sum

def sXX (ps : List (ℚ × ℚ)) : ℚ :=
  (ps.map (fun p => (p.1 - meanFst ps) * (p.1 - meanFst ps))).sum

def sYY (ps : List (ℚ × ℚ)) : ℚ :=
  (ps.map (fun p => (p.2 - meanSnd ps) * (p.2 - meanSnd ps))).sum

/-- The exact representation of `corr(xs, ys)`: the correlation is
`sXY / sqrt(sXX * sYY)` (the `n-1` normalizations cancel), `none` when no
complete pair exists or a variance is zero (pandas NaN). -/
def pearsonRep (xs ys : List (Option ℚ)) : Option (ℚ × ℚ) :=
  let ps := pearsonPairs xs ys
  if ps.length = 0 then none
  else if sXX ps * sYY ps = 0 then none
  else some (sXY ps, sXX ps * sYY ps)

/-- Does a represented value equal exactly 1.0?
`s / sqrt(d) = 1 ↔ 0 < s ∧ s² = d`; NaN is never 1.0. -/
def repOne : Option (ℚ × ℚ) → Bool
  | none => false
  | some (s, d) => decide (0 < s ∧ s * s = d)

/-- Numeric columns with their data, in frame order
(`df.select_dtypes(include=[np.number])`). -/
def numericData (f : Frame) : List (String × List (Option ℚ)) :=
  f.filterMap (fun c => match c with | .num n cs => some (n, cs) | _ => none)

/-- `get_correlation_matrix`: empty below two numeric columns, otherwise
all ordered pairs (self-pairs included). -/
def get_correlation_matrix (f : Frame) : List CorrTriple :=
  let nd := numericData f
  if nd.length < 2 then []
  else nd.flatMap (fun c1 => nd.map (fun c2 => ⟨c1.1, c2.1, pearsonRep c1.2 c2.2⟩))

/-! ## Quality score and the insights bundle -/

/-- Python `round(q, 2)` (Mathlib `round` is half-up rather than banker's;
no claim touches a tie). -/
def round2 (q : ℚ) : ℚ := ((round (q * 100) : ℤ) : ℚ) / 100

/-- Lines 310-311 verbatim: the pre-rounding quality score. -/
def qualityScoreRaw (o c : Nat) : ℚ :=
  if 0 < o then max 0 (100 - ((o : ℚ) - (c : ℚ)) / (o : ℚ) * 100) else 0

/-- The subset of the insights dict the claims quantify over. -/
structure Insights where
  rows_original : Nat
  rows_cleaned : Nat
  duplicates_removed : Nat
  anomalies_detected : Nat
  pii_masked : Nat
  quality_score : ℚ
  logs : List String
  correlation_matrix : List CorrTriple
deriving DecidableEq, Repr

/-- `process_dataset` after ingestion: the stage sequence of lines 253-341
(the ingested frame `f0` is the function's input; previews, SQL text,
summary text and column stats are not consumed by any claim). -/
def process_dataset (d : Detector) (maskPii : Bool) (f0 : Frame) : Frame × Insights :=
  let origRows := numRows f0
  let f1 := textNormStage f0
  let f2 := coerceFrame f1
  let logsA := coerceLogs f1
  let p3 := smart_text_correction f2 logsA
  let f4 := dateImputeFrame p3.1
  let logsB := p3.2 ++ dateImputeLogs p3.1
  let p5 := dedupStage f4
  let p6 := piiStage maskPii p5.1
  let logsC :=
    if maskPii && decide (0 < p6.2) then
      logsB ++ ["🔒 Masked " ++ toString p6.2 ++ " PII items"]
    else logsB
  let p7 := anomalyStage d p6.1
  let cleanedRows := numRows p7.1
  (p7.1,
   { rows_original := origRows
     rows_cleaned := cleanedRows
     duplicates_removed := p5.2
     anomalies_detected := p7.2
     pii_masked := p6.2
     quality_score := round2 (qualityScoreRaw origRows cleanedRows)
     logs := logsC.take 15
     correlation_matrix := get_correlation_matrix p7.1 })

/-! ## The natural-language filter interpreter (`main.py` lines 39-55) -/

/-- Stable descending sort by length (`sorted(columns, key=len,
reverse=True)`; Python's sort is stable). -/
def insLenDesc (x : String) : List String → List String
  | [] => [x]
  | y :: ys => if x.length ≥ y.length then x :: y :: ys else y :: insLenDesc x ys

def sortByLenDesc : List String → List String
  | [] => []
  | x :: xs => insLenDesc x (sortByLenDesc xs)

def operatorOf (q : String) : String :=
  if ["greater", "more", "above", "over", "higher", ">"].any (fun w => strContains q w) then ">"
  else if ["less", "lower", "under", "below", "<"].any (fun w => strContains q w) then "<"
  else "="
  -- the source's final `elif` over the equality keywords also yields "=",
  -- which is the initial value, so the net result is the same

def interpret_natural_language (query : String) (columns : List String) : String :=
  let q := pyLower query
  match (sortByLenDesc columns).find? (fun c => strContains q (pyLower c)) with
  | none => ""
  | some col =>
    let numbers := reFindAll numberAlts q
    let value? : Option String :=
      match numbers.getLast? with
      | some n => some n
      | none => if (pySplit q).length > 1 then (pySplit q).getLast? else none
    match value? with
    | none => ""
    | some v => col ++ " " ++ operatorOf q ++ " " ++ v

/-! ## Definitions taken from the spec's words (for refinement claims)

Each `claimed_*` definition transcribes what the specification asserts, to
be compared against the definitions above, which transcribe the source. -/

/-- Claimed quality contract (§4.8):
`max(0, 100 − 100 × (rows_original − rows_cleaned) / rows_original)`,
defined as exactly 0 when `rows_original = 0`. -/
def claimed_quality (o c : Nat) : ℚ :=
  if o = 0 then 0 else max 0 (100 - 100 * (((o : ℚ) - (c : ℚ)) / (o : ℚ)))

/-- Claimed feature columns (§4.7): every Numeric column plus every
remaining Text column (label-encoded). -/
def claimed_feature_col_names (f : Frame) : List String :=
  numericColNames f ++ f.filterMap (fun c => match c with | .obj n _ => some n | _ => none)

/-- Claimed skip condition: the anomaly stage is skipped only when there
are zero Numeric/encoded feature columns. -/
def claimed_anomaly_runs (f : Frame) : Bool := !(claimed_feature_col_names f).isEmpty

/-- Claimed feature matrix: numeric columns as-is plus the label-encoded
text columns. -/
def claimed_feature_matrix (f : Frame) : List (List ℚ) :=
  let ai := (f.map labelEncodeCol).map fillna0Col
  let sel := (claimed_feature_col_names f).map (lookupNumCells ai)
  (List.range (numRows f)).map (fun i => sel.map (fun cs => (cs.getD i (some 0)).getD 0))

def dateOnlyFrame (f : Frame) : Frame := f.map dateOnlyCol

def imputeOnlyFrame (f : Frame) : Frame := f.map imputeOnlyCol

/-- The claimed stage order (§2 as read by the claim): type inference with
date parsing, then imputation, then fuzzy correction, then deduplication,
PII masking and anomaly detection, with the same per-stage bookkeeping as
the source. -/
def claimed_spec_order_process (d : Detector) (maskPii : Bool) (f0 : Frame) : Frame × Insights :=
  let origRows := numRows f0
  let f1 := textNormStage f0
  let f2 := coerceFrame f1
  let logsA := coerceLogs f1
  let f3 := dateOnlyFrame f2
  let logsB := logsA ++ dateImputeLogs f2
  let f4 := imputeOnlyFrame f3
  let p5 := smart_text_correction f4 logsB
  let p6 := dedupStage p5.1
  let p7 := piiStage maskPii p6.1
  let logsC :=
    if maskPii && decide (0 < p7.2) then
      p5.2 ++ ["🔒 Masked " ++ toString p7.2 ++ " PII items"]
    else p5.2
  let p8 := anomalyStage d p7.1
  let cleanedRows := numRows p8.1
  (p8.1,
   { rows_original := origRows
     rows_cleaned := cleanedRows
     duplicates_removed := p6.2
     anomalies_detected := p8.2
     pii_masked := p7.2
     quality_score := round2 (qualityScoreRaw origRows cleanedRows)
     logs := logsC.take 15
     correlation_matrix := get_correlation_matrix p8.1 })

/-- The claimed comparand rule (§4.9 as read by the claim): the last
numeric literal, falling back to the last whitespace-delimited token
whenever no number is present. -/
def claimed_interpret (query : String) (columns : List String) : String :=
  let q := pyLower query
  match (sortByLenDesc columns).find? (fun c => strContains q (pyLower c)) with
  | none => ""
  | some col =>
    let numbers := reFindAll numberAlts q
    let value? : Option String :=
      match numbers.getLast? with
      | some n => some n
      | none => (pySplit q).getLast?
    match value? with
    | none => ""
    | some v => col ++ " " ++ operatorOf q ++ " " ++ v

/-- The frame component of `smart_text_correction` (it does not depend on
the incoming logs). -/
def fuzzyFrame (f : Frame) : Frame := f.map (fuzzyCol (numRows f))

/-- The frame entering `drop_duplicates`. -/
def preDedup (f0 : Frame) : Frame := dateImputeFrame (fuzzyFrame (coerceFrame (textNormStage f0)))

/-- The frame entering the anomaly stage. -/
def preAnomaly (m : Bool) (f0 : Frame) : Frame :=
  (piiStage m (dedupStage (preDedup f0)).1).1

/-- The log list assembled by `process_dataset` (needed to state its
decomposition; identical to the lets inside `process_dataset`). -/
def pipeLogs (m : Bool) (f0 : Frame) : List String :=
  let f1 := textNormStage f0
  let f2 := coerceFrame f1
  let p3 := smart_text_correction f2 (coerceLogs f1)
  let logsB := p3.2 ++ dateImputeLogs p3.1
  if m && decide (0 < (piiStage m (dedupStage (dateImputeFrame p3.1)).1).2) then
    logsB ++ ["🔒 Masked "
      ++ toString (piiStage m (dedupStage (dateImputeFrame p3.1)).1).2 ++ " PII items"]
  else logsB

/-! ## Concrete frames and the concrete detector used by witnesses and
counterexamples -/

/-- A concrete detector (flags no rows); it satisfies sklearn's
one-prediction-per-row contract. -/
def d0 : Detector := fun m => m.map (fun _ => false)

/-- Two numeric-looking columns, the first constant. -/
def constFrame : Frame :=
  [.obj "A" [some "1", some "1", some "1"], .obj "B" [some "1", some "2", some "9"]]

/-- A text column that triggers one fuzzy correction, plus an unparseable
date column. -/
def orderFrame : Frame :=
  [.obj "Fruit" [some "apple", some "apple", some "apple", some "aple"],
   .obj "Date" [none, none, none, none]]

/-- A column whose corrections chain: `aaple → apple` and `apple → appl`
in one pass. -/
def chainFrame : Frame :=
  [.obj "fruit" (List.replicate 7 (some "appl") ++ List.replicate 3 (some "apple")
     ++ [some "aaple"])]

/-- One text column, no numeric column. -/
def textOnlyFrame : Frame := [.obj "T" [some "Ab", some "Cd", some "Ef"]]

/-- One numeric-looking column and one text column. -/
def mixedFrame : Frame :=
  [.obj "N" [some "1", some "2", some "3"], .obj "T" [some "Ab", some "Cd", some "Ef"]]

/-- The Scenario C cells. -/
def maskFrame : Frame := [.obj "contact" [some "john@example.com", some "123-456-7890"]]

/-- A column with repeated but dissimilar values: the corrector records
nothing on it. -/
def plainFrame : Frame := [.obj "x" [some "aa", some "aa", some "bb", some "bb", some "bb"]]

/-- The ingested frame of a parseable 0-row file: pandas readers type the
columns of a header-only CSV/XLSX as object, with no cells. -/
def headerOnlyFrame (names : List String) : Frame := names.map (fun n => Col.obj n [])

/-- Columns that are empty and non-numeric (the shape every stage preserves
on a 0-row all-object frame). -/
def colEmptyNonNum : Col → Prop
  | .num _ _ => False
  | .obj _ cs => cs = []
  | .date _ cs => cs = []

/-! ## Pipeline prefixes (named for the proofs) -/

lemma d0_len : ∀ x, (d0 x).length = x.length := by
  intro x
  simp [d0]

lemma process_dataset_fst (d : Detector) (m : Bool) (f0 : Frame) :
    (process_dataset d m f0).1 = (anomalyStage d (preAnomaly m f0)).1 := rfl

lemma process_rows_original (d : Detector) (m : Bool) (f0 : Frame) :
    (process_dataset d m f0).2.rows_original = numRows f0 := rfl

lemma process_rows_cleaned (d : Detector) (m : Bool) (f0 : Frame) :
    (process_dataset d m f0).2.rows_cleaned = numRows (anomalyStage d (preAnomaly m f0)).1 := rfl

lemma process_dups (d : Detector) (m : Bool) (f0 : Frame) :
    (process_dataset d m f0).2.duplicates_removed = (dedupStage (preDedup f0)).2 := rfl

lemma process_anoms (d : Detector) (m : Bool) (f0 : Frame) :
    (process_dataset d m f0).2.anomalies_detected = (anomalyStage d (preAnomaly m f0)).2 := rfl

lemma process_quality (d : Detector) (m : Bool) (f0 : Frame) :
    (process_dataset d m f0).2.quality_score
      = round2 (qualityScoreRaw (numRows f0) (numRows (anomalyStage d (preAnomaly m f0)).1)) := rfl

lemma process_corr (d : Detector) (m : Bool) (f0 : Frame) :
    (process_dataset d m f0).2.correlation_matrix
      = get_correlation_matrix (anomalyStage d (preAnomaly m f0)).1 := rfl

/-- `process_dataset` decomposed over the named pipeline prefixes: the
detector enters only through `anomalyStage`. -/
lemma process_dataset_decomp (d : Detector) (m : Bool) (f0 : Frame) :
    process_dataset d m f0 =
      ((anomalyStage d (preAnomaly m f0)).1,
       { rows_original := numRows f0
         rows_cleaned := numRows (anomalyStage d (preAnomaly m f0)).1
         duplicates_removed := (dedupStage (preDedup f0)).2
         anomalies_detected := (anomalyStage d (preAnomaly m f0)).2
         pii_masked := (piiStage m (dedupStage (preDedup f0)).1).2
         quality_score := round2 (qualityScoreRaw (numRows f0)
           (numRows (anomalyStage d (preAnomaly m f0)).1))
         logs := (pipeLogs m f0).take 15
         correlation_matrix :=
           get_correlation_matrix (anomalyStage d (preAnomaly m f0)).1 }) := rfl

/-! ## Row-count preservation -/

lemma len_textNormCol (c : Col) : (textNormCol c).len = c.len := by
  cases c <;> simp [textNormCol, Col.len]

lemma len_coerceCol (n : Nat) (c : Col) : (coerceCol n c).1.len = c.len := by
  cases c with
  | obj nm cs =>
      simp only [coerceCol]
      split
      · split <;> simp [Col.len]
      · split <;> simp [Col.len]
  | num nm cs => rfl
  | date nm cs => rfl

lemma len_fuzzyCol (n : Nat) (c : Col) : (fuzzyCol n c).len = c.len := by
  cases c with
  | obj nm cs =>
      simp only [fuzzyCol]
      split <;> simp [Col.len, applyCorrections]
  | num nm cs => rfl
  | date nm cs => rfl

lemma len_smart_parse_dates (c : Col) : (smart_parse_dates c).len = c.len := by
  cases c <;> simp [smart_parse_dates, Col.len]

lemma len_dateOnlyCol (c : Col) : (dateOnlyCol c).len = c.len := by
  unfold dateOnlyCol
  split
  · exact len_smart_parse_dates c
  · rfl

lemma len_imputeOnlyCol (c : Col) : (imputeOnlyCol c).len = c.len := by
  cases c with
  | num nm cs =>
      simp only [imputeOnlyCol]
      split <;> simp [Col.len]
  | obj nm cs => rfl
  | date nm cs => rfl

lemma len_dateImputeCol (c : Col) : (dateImputeCol c).len = c.len := by
  unfold dateImputeCol
  rw [len_imputeOnlyCol, len_dateOnlyCol]

lemma len_piiMaskCol (c : Col) : (piiMaskCol c).1.len = c.len := by
  cases c <;> simp [piiMaskCol, Col.len]

lemma len_select (c : Col) (idx : List Nat) : (c.select idx).len = idx.length := by
  cases c <;> simp [Col.select, Col.len]

lemma numRows_map (g : Col → Col) (h : ∀ c, (g c).len = c.len) (f : Frame) :
    numRows (f.map g) = numRows f := by
  cases f <;> simp [numRows, h]

lemma numRows_textNorm (f : Frame) : numRows (textNormStage f) = numRows f :=
  numRows_map _ len_textNormCol f

lemma numRows_coerce (f : Frame) : numRows (coerceFrame f) = numRows f :=
  numRows_map _ (len_coerceCol (numRows f)) f

lemma numRows_fuzzy (f : Frame) : numRows (fuzzyFrame f) = numRows f :=
  numRows_map _ (len_fuzzyCol (numRows f)) f

lemma numRows_dateImpute (f : Frame) : numRows (dateImputeFrame f) = numRows f :=
  numRows_map _ len_dateImputeCol f

lemma numRows_pii (f : Frame) : numRows (detect_and_mask_pii f).1 = numRows f :=
  numRows_map _ len_piiMaskCol f

lemma numRows_piiStage (m : Bool) (f : Frame) : numRows (piiStage m f).1 = numRows f := by
  unfold piiStage
  split
  · exact numRows_pii f
  · rfl

lemma numRows_preDedup (f0 : Frame) : numRows (preDedup f0) = numRows f0 := by
  unfold preDedup
  rw [numRows_dateImpute, numRows_fuzzy, numRows_coerce, numRows_textNorm]

/-! ## Deduplication and anomaly-stage row accounting -/

lemma numRows_selectRows (f : Frame) (idx : List Nat) (hf : f ≠ []) :
    numRows (selectRows f idx) = idx.length := by
  cases f with
  | nil => exact absurd rfl hf
  | cons c t => simpa [selectRows, numRows] using len_select c idx

lemma keepIdxs_length_le (f : Frame) : (keepIdxs f).length ≤ numRows f := by
  simpa [keepIdxs] using List.length_filter_le _ (List.range (numRows f))

lemma numRows_dedup (f : Frame) : numRows (dedupStage f).1 = (keepIdxs f).length := by
  cases f with
  | nil => simp [dedupStage, selectRows, numRows, keepIdxs]
  | cons c t =>
      simpa [dedupStage, selectRows, numRows] using len_select c (keepIdxs (c :: t))

lemma dedupStage_snd (f : Frame) :
    (dedupStage f).2 = numRows f - (keepIdxs f).length := rfl

/-- Counting helper: filtering `range l.length` through `getD` keeps
exactly the rows not flagged. -/
lemma length_filter_range_getD (l : List Bool) :
    ((List.range l.length).filter (fun i => !(l.getD i false))).length
      = l.length - l.count true := by
  induction l with
  | nil => simp
  | cons a t ih =>
      have hmap : (List.map Nat.succ (List.range t.length)).filter
            (fun i => !((a :: t).getD i false))
          = List.map Nat.succ ((List.range t.length).filter (fun i => !(t.getD i false))) := by
        rw [List.filter_map]
        rfl
      have hle := List.count_le_length (a := true) (l := t)
      rw [List.length_cons, List.range_succ_eq_map, List.filter_cons, hmap]
      cases a with
      | true =>
          simp only [List.getD_cons_zero, Bool.not_true, Bool.false_eq_true, if_false,
            List.length_map, ih, List.count_cons_self]
          omega
      | false =>
          simp only [List.getD_cons_zero, Bool.not_false, if_true, List.length_cons,
            List.length_map, ih]
          rw [List.count_cons_of_ne (by simp)]
          omega

lemma featureMatrix_length (f : Frame) : (featureMatrix f).length = numRows f := by
  simp [featureMatrix]

lemma anomalyStage_accounting (d : Detector) (f : Frame)
    (hd : ∀ x, (d x).length = x.length) :
    numRows (anomalyStage d f).1 + (anomalyStage d f).2 = numRows f := by
  unfold anomalyStage
  split
  · simp
  · rename_i hne
    have hf : f ≠ [] := by
      intro h
      rw [h] at hne
      simp [numericColNames] at hne
    have hl : (d (featureMatrix f)).length = numRows f := by
      rw [hd, featureMatrix_length]
    have hsel :
        numRows (selectRows f ((List.range (numRows f)).filter
          (fun i => !((d (featureMatrix f)).getD i false)))) =
        ((List.range (numRows f)).filter
          (fun i => !((d (featureMatrix f)).getD i false))).length :=
      numRows_selectRows f _ hf
    have hcount := length_filter_range_getD (d (featureMatrix f))
    rw [hl] at hcount
    have hle := List.count_le_length (a := true) (l := d (featureMatrix f))
    rw [hl] at hle
    simp only [hsel, hcount]
    omega

lemma anomalyStage_count_le (d : Detector) (f : Frame)
    (hd : ∀ x, (d x).length = x.length) :
    (anomalyStage d f).2 ≤ numRows f := by
  have h := anomalyStage_accounting d f hd
  omega

/-- The full accounting identity behind C1 and C2. -/
lemma process_accounting (f0 : Frame) (d : Detector) (m : Bool)
    (hd : ∀ x, (d x).length = x.length) :
    (process_dataset d m f0).2.rows_cleaned + (process_dataset d m f0).2.duplicates_removed
      + (process_dataset d m f0).2.anomalies_detected = (process_dataset d m f0).2.rows_original := by
  rw [process_rows_cleaned, process_dups, process_anoms, process_rows_original]
  have h1 : numRows (preDedup f0) = numRows f0 := numRows_preDedup f0
  have h2 : numRows (dedupStage (preDedup f0)).1 = (keepIdxs (preDedup f0)).length :=
    numRows_dedup _
  have h2' : (keepIdxs (preDedup f0)).length ≤ numRows (preDedup f0) := keepIdxs_length_le _
  have h3 : numRows (preAnomaly m f0) = (keepIdxs (preDedup f0)).length := by
    unfold preAnomaly
    rw [numRows_piiStage, h2]
  have h4 := anomalyStage_accounting d (preAnomaly m f0) hd
  rw [h3] at h4
  rw [dedupStage_snd, h1]
  omega

lemma process_rows_cleaned_le (f0 : Frame) (d : Detector) (m : Bool)
    (hd : ∀ x, (d x).length = x.length) :
    (process_dataset d m f0).2.rows_cleaned ≤ (process_dataset d m f0).2.rows_original := by
  have h := process_accounting f0 d m hd
  omega

/-! ## Quality-score lemmas -/

lemma qualityScoreRaw_eq_claimed (o c : Nat) : qualityScoreRaw o c = claimed_quality o c := by
  unfold qualityScoreRaw claimed_quality
  rcases Nat.eq_zero_or_pos o with h | h
  · simp [h]
  · rw [if_pos h, if_neg (by omega)]
    congr 1
    ring

lemma qualityScoreRaw_bounds (o c : Nat) (h : c ≤ o) :
    0 ≤ qualityScoreRaw o c ∧ qualityScoreRaw o c ≤ 100 := by
  unfold qualityScoreRaw
  split
  · rename_i ho
    refine ⟨le_max_left 0 _, max_le (by norm_num) ?_⟩
    have h1 : (0 : ℚ) ≤ ((o : ℚ) - (c : ℚ)) := by
      have := (Nat.cast_le (α := ℚ)).mpr h
      linarith
    have h2 : (0 : ℚ) < (o : ℚ) := by exact_mod_cast ho
    have h3 : (0 : ℚ) ≤ ((o : ℚ) - (c : ℚ)) / (o : ℚ) * 100 :=
      mul_nonneg (div_nonneg h1 (le_of_lt h2)) (by norm_num)
    linarith
  · norm_num

lemma round2_bounds (q : ℚ) (h0 : 0 ≤ q) (h1 : q ≤ 100) :
    0 ≤ round2 q ∧ round2 q ≤ 100 := by
  have hl : (0 : ℤ) ≤ round (q * 100) := by
    rw [round_eq]
    exact Int.le_floor.mpr (by push_cast; linarith)
  have hu : round (q * 100) ≤ 10000 := by
    rw [round_eq]
    have hlt : ⌊q * 100 + 1 / 2⌋ < 10001 := by
      rw [Int.floor_lt]
      push_cast
      linarith
    omega
  unfold round2
  refine ⟨div_nonneg (by exact_mod_cast hl) (by norm_num), ?_⟩
  rw [div_le_iff₀ (by norm_num)]
  calc ((round (q * 100) : ℤ) : ℚ) ≤ 10000 := by exact_mod_cast hu
    _ = 100 * 100 := by norm_num

/-! ## C1 -/

/-- C1: for every input frame the reported counts satisfy
`rows_cleaned + duplicates_removed + anomalies_detected = rows_original`
(so in particular `0 ≤ rows_cleaned ≤ rows_original`; the counts are
naturals, and the subtraction form of the claim follows from the sum
form), and the PII-masking stage never changes the row count.  The
hypothesis on the detector is sklearn's contract: `fit_predict` returns
one prediction per input row. -/
theorem rows_accounting_invariant (f0 : Frame) (d : Detector) (m : Bool)
    (hd : ∀ x, (d x).length = x.length) :
    (process_dataset d m f0).2.rows_cleaned + (process_dataset d m f0).2.duplicates_removed
        + (process_dataset d m f0).2.anomalies_detected = (process_dataset d m f0).2.rows_original
    ∧ (process_dataset d m f0).2.rows_cleaned ≤ (process_dataset d m f0).2.rows_original
    ∧ ∀ g : Frame, numRows (detect_and_mask_pii g).1 = numRows g :=
  ⟨process_accounting f0 d m hd, process_rows_cleaned_le f0 d m hd, numRows_pii⟩

/-- Witness for C1 at a concrete frame and detector. -/
theorem rows_accounting_invariant_witness :
    (process_dataset d0 true constFrame).2.rows_cleaned
        + (process_dataset d0 true constFrame).2.duplicates_removed
        + (process_dataset d0 true constFrame).2.anomalies_detected
        = (process_dataset d0 true constFrame).2.rows_original
    ∧ (process_dataset d0 true constFrame).2.rows_cleaned
        ≤ (process_dataset d0 true constFrame).2.rows_original
    ∧ ∀ g : Frame, numRows (detect_and_mask_pii g).1 = numRows g :=
  rows_accounting_invariant constFrame d0 true d0_len

/-! ## C2 -/

/-- C2: the quality score is the claimed formula
`max(0, 100 − 100 × (rows_original − rows_cleaned) / rows_original)`
(`qualityScoreRaw`, lines 310-311, equals `claimed_quality` for all
arguments, including the `rows_original = 0 → 0` case); the reported field
is that value rounded to two decimals, is exactly 0 on a 0-row input, and
always lies in `[0, 100]` (the embedding is total: no NaN, no exception). -/
theorem quality_score_contract (f0 : Frame) (d : Detector) (m : Bool)
    (hd : ∀ x, (d x).length = x.length) :
    (∀ o c : Nat, qualityScoreRaw o c = claimed_quality o c)
    ∧ (process_dataset d m f0).2.quality_score
        = round2 (claimed_quality (process_dataset d m f0).2.rows_original
            (process_dataset d m f0).2.rows_cleaned)
    ∧ ((process_dataset d m f0).2.rows_original = 0 →
        (process_dataset d m f0).2.quality_score = 0)
    ∧ 0 ≤ (process_dataset d m f0).2.quality_score
    ∧ (process_dataset d m f0).2.quality_score ≤ 100 := by
  have hle : (process_dataset d m f0).2.rows_cleaned
      ≤ (process_dataset d m f0).2.rows_original := process_rows_cleaned_le f0 d m hd
  have hq : (process_dataset d m f0).2.quality_score
      = round2 (qualityScoreRaw (process_dataset d m f0).2.rows_original
          (process_dataset d m f0).2.rows_cleaned) := rfl
  have hb := qualityScoreRaw_bounds _ _ hle
  have hr := round2_bounds _ hb.1 hb.2
  refine ⟨qualityScoreRaw_eq_claimed, ?_, ?_, ?_, ?_⟩
  · rw [hq, qualityScoreRaw_eq_claimed]
  · intro h0
    rw [hq, h0]
    simp [qualityScoreRaw, round2]
  · rw [hq]; exact hr.1
  · rw [hq]; exact hr.2

/-- Witness for C2 at a concrete frame and detector. -/
theorem quality_score_contract_witness :
    (∀ o c : Nat, qualityScoreRaw o c = claimed_quality o c)
    ∧ (process_dataset d0 true constFrame).2.quality_score
        = round2 (claimed_quality (process_dataset d0 true constFrame).2.rows_original
            (process_dataset d0 true constFrame).2.rows_cleaned)
    ∧ ((process_dataset d0 true constFrame).2.rows_original = 0 →
        (process_dataset d0 true constFrame).2.quality_score = 0)
    ∧ 0 ≤ (process_dataset d0 true constFrame).2.quality_score
    ∧ (process_dataset d0 true constFrame).2.quality_score ≤ 100 :=
  quality_score_contract constFrame d0 true d0_len

/-! ## C4: stage order -/

lemma dateImputeFrame_decomposed (f : Frame) :
    dateImputeFrame f = imputeOnlyFrame (dateOnlyFrame f) := by
  simp only [dateImputeFrame, imputeOnlyFrame, dateOnlyFrame, List.map_map]
  rfl

/-- C4 counterexample: on `orderFrame` the pipeline's report differs from
the spec-order composition's: the code logs the fuzzy correction before
the date-formatting entry, because fuzzy correction runs before the
date-parsing/imputation pass, not after imputation as claimed. -/
theorem stage_order_counterexample :
    (process_dataset d0 true orderFrame).2.logs
      ≠ (claimed_spec_order_process d0 true orderFrame).2.logs := by decide

/-- C4 (amended): the orchestrator composes the stages in the order
text normalization, numeric coercion, fuzzy text correction, date parsing,
imputation, deduplication, PII masking, anomaly detection — fuzzy
correction runs *before* imputation (and before date parsing); concretely,
on `orderFrame` the fuzzy log entry precedes the date-formatting entry. -/
theorem stage_order_amended (d : Detector) (m : Bool) (f0 : Frame) :
    (process_dataset d m f0).1
      = (anomalyStage d
          (piiStage m
            (dedupStage
              (imputeOnlyFrame (dateOnlyFrame
                (fuzzyFrame (coerceFrame (textNormStage f0)))))).1).1).1
    ∧ (process_dataset d0 true orderFrame).2.logs
        = ["Auto-Corrected 'Aple' to 'Apple' in Fruit", "Formatted Date to DateTime"] := by
  constructor
  · rw [process_dataset_fst]
    unfold preAnomaly preDedup
    rw [dateImputeFrame_decomposed]
  · decide

/-! ## C10: the Pc → Piece replacement -/

/-- C10: the normalization replacement map sends the null spellings to
"Unknown" and also the literal "Pc" to "Piece", so cells "pc", "PC" and
"Pc" (title-cased to "Pc") leave the text-normalization stage as
"Piece". -/
theorem pc_piece_normalization :
    normCell (some "pc") = some "Piece"
    ∧ normCell (some "PC") = some "Piece"
    ∧ normCell (some "Pc") = some "Piece"
    ∧ normCell (some "nan") = some "Unknown"
    ∧ normCell (some " n/a ") = some "Unknown"
    ∧ textNormStage [Col.obj "unit" [some "pc", some "PC", some "Pc", none]]
        = [Col.obj "unit" [some "Piece", some "Piece", some "Piece", some "Unknown"]] := by
  decide

/-! ## C7: PII masking -/

/-- C7: with `mask_pii` set, an email cell is rewritten to its first
character, "***@" and the domain, and a phone cell to the fixed
eight-star redaction (Scenario C, applied to the masking stage's input);
with `mask_pii` unset the stage passes every frame through verbatim. -/
theorem pii_masking_behaviour :
    detect_and_mask_pii maskFrame
        = ([Col.obj "contact" [some "j***@example.com", some "********"]], 2)
    ∧ ∀ f : Frame, piiStage false f = (f, 0) := by
  refine ⟨by decide, ?_⟩
  intro f
  simp [piiStage]

/-! ## C9: the natural-language interpreter -/

lemma mem_insLenDesc (x y : String) (l : List String) :
    y ∈ insLenDesc x l ↔ y = x ∨ y ∈ l := by
  induction l with
  | nil => simp [insLenDesc]
  | cons a t ih =>
      simp only [insLenDesc]
      split
      · simp
      · simp only [List.mem_cons, ih]
        tauto

lemma mem_sortByLenDesc (x : String) (l : List String) :
    x ∈ sortByLenDesc l ↔ x ∈ l := by
  induction l with
  | nil => simp [sortByLenDesc]
  | cons a t ih => simp [sortByLenDesc, mem_insLenDesc, ih]

/-- C9 counterexample: on the single-token query "age" with matching
column "age", the code returns the empty string (the fallback requires
more than one whitespace token), while the claimed unconditional fallback
would produce "age = age". -/
theorem interpret_fallback_counterexample :
    interpret_natural_language "age" ["age"] = ""
    ∧ claimed_interpret "age" ["age"] = "age = age" := by decide

/-- C9 (amended): Scenario E holds ("Age greater than 30" over
["Age","Name"] gives "Age > 30"); the comparand is the last numeric
literal, but the whitespace-token fallback applies only when the query
splits into more than one token (a one-token numberless query yields "");
and whenever no column name occurs in the query the result is "". -/
theorem interpret_amended :
    interpret_natural_language "Age greater than 30" ["Age", "Name"] = "Age > 30"
    ∧ interpret_natural_language "age" ["age"] = ""
    ∧ ∀ (q : String) (cols : List String),
        (∀ c ∈ cols, strContains (pyLower q) (pyLower c) = false) →
        interpret_natural_language q cols = "" := by
  refine ⟨by decide, by decide, ?_⟩
  intro q cols h
  unfold interpret_natural_language
  have hf : (sortByLenDesc cols).find? (fun c => strContains (pyLower q) (pyLower c)) = none := by
    rw [List.find?_eq_none]
    intro x hx
    simp [h x ((mem_sortByLenDesc x cols).mp hx)]
  simp only [hf]

/-- Witness for the amended C9 at a concrete query and column list. -/
theorem interpret_amended_witness :
    interpret_natural_language "hello world" ["Age"] = "" :=
  interpret_amended.2.2 "hello world" ["Age"] (by decide)

/-! ## C6: fuzzy correction is not idempotent -/

/-- C6 counterexample: on `chainFrame` the first pass corrects
`aaple → apple` and `apple → appl` (non-chained batch replace), leaving a
minority "apple" that the second pass corrects again: the second
application changes the frame and records a further correction. -/
theorem fuzzy_not_idempotent :
    (smart_text_correction (smart_text_correction chainFrame []).1 []).1
        ≠ (smart_text_correction chainFrame []).1
    ∧ (smart_text_correction (smart_text_correction chainFrame []).1 []).2 ≠ [] := by
  decide

lemma applyCorrections_nil (cells : List (Option String)) :
    applyCorrections [] cells = cells := by
  unfold applyCorrections
  simp [List.find?]

/-- C6 (amended): the corrector is not idempotent in general (a correction
target that is itself corrected can fire again on a second pass,
counterexample above); what does hold is that a pass whose correction map
is empty on every non-skipped text column leaves the frame unchanged. -/
theorem fuzzy_pass_without_corrections_is_identity (f : Frame) (logs : List String)
    (h : ∀ n cells, Col.obj n cells ∈ f → fuzzySkip (numRows f) cells = false →
      correctionsOf (value_counts cells) = []) :
    (smart_text_correction f logs).1 = f := by
  show f.map (fuzzyCol (numRows f)) = f
  conv_rhs => rw [← List.map_id f]
  apply List.map_congr_left
  intro c hc
  cases c with
  | obj n cells =>
      rw [show fuzzyCol (numRows f) (Col.obj n cells)
            = if fuzzySkip (numRows f) cells then Col.obj n cells
              else Col.obj n (applyCorrections (correctionsOf (value_counts cells)) cells)
          from rfl]
      split
      · rfl
      · rename_i hskip
        rw [h n cells hc (by simpa using hskip), applyCorrections_nil]
        rfl
  | num n cells => rfl
  | date n cells => rfl

/-- Witness for the amended C6: a pass over `plainFrame` (similar values
absent) returns it unchanged. -/
theorem fuzzy_pass_without_corrections_is_identity_witness :
    (smart_text_correction plainFrame []).1 = plainFrame := by
  apply fuzzy_pass_without_corrections_is_identity plainFrame []
  intro n cells hmem hns
  simp only [plainFrame, List.mem_singleton] at hmem
  rw [show cells = [some "aa", some "aa", some "bb", some "bb", some "bb"] by
    cases hmem; rfl]
  decide

/-! ## C3: the anomaly feature matrix -/

lemma name_labelEncodeCol (c : Col) : (labelEncodeCol c).name = c.name := by
  cases c <;> rfl

lemma name_fillna0Col (c : Col) : (fillna0Col c).name = c.name := by
  cases c <;> rfl

lemma lookupNumCells_cons_ne (c : Col) (f : Frame) (n : String) (h : c.name ≠ n) :
    lookupNumCells (c :: f) n = lookupNumCells f n := by
  unfold lookupNumCells
  rw [List.find?_cons_of_neg]
  simpa using h

lemma numericColNames_subset_names (f : Frame) :
    ∀ n ∈ numericColNames f, n ∈ f.map Col.name := by
  intro n hn
  simp only [numericColNames, List.mem_filterMap] at hn
  obtain ⟨c, hc, hcn⟩ := hn
  rw [List.mem_map]
  refine ⟨c, hc, ?_⟩
  cases c with
  | obj nm cs => simp at hcn
  | num nm cs =>
      simp only [Option.some.injEq] at hcn
      simpa [Col.name] using hcn
  | date nm cs => simp at hcn

lemma getD_fill (l : List (Option ℚ)) (i : Nat) :
    ((l.map (fun x => some (x.getD 0))).getD i (some 0)).getD 0 = (l.getD i none).getD 0 := by
  induction l generalizing i with
  | nil => simp
  | cons a t ih =>
      cases i with
      | zero => simp
      | succ k => simpa using ih k

/-- Under unique column names, `df_for_ai[numeric_cols_model]` selects
exactly the numeric columns of the incoming frame (with `fillna(0)`); the
label-encoded text columns are never selected. -/
lemma lookup_sel (f : Frame) (h : (f.map Col.name).Nodup) :
    (numericColNames f).map (lookupNumCells ((f.map labelEncodeCol).map fillna0Col))
      = (numericData f).map (fun c => c.2.map (fun x => some (x.getD 0))) := by
  induction f with
  | nil => rfl
  | cons c t ih =>
      rw [List.map_cons, List.nodup_cons] at h
      obtain ⟨hname, hrest⟩ := h
      have hskip : ∀ n ∈ numericColNames t,
          lookupNumCells ((fillna0Col (labelEncodeCol c)) :: (t.map labelEncodeCol).map fillna0Col) n
            = lookupNumCells ((t.map labelEncodeCol).map fillna0Col) n := by
        intro n hn
        apply lookupNumCells_cons_ne
        rw [name_fillna0Col, name_labelEncodeCol]
        intro hcn
        exact hname (by rw [hcn]; exact numericColNames_subset_names t n hn)
      cases c with
      | obj nm cs =>
          show (numericColNames t).map
              (lookupNumCells ((fillna0Col (labelEncodeCol (Col.obj nm cs)))
                :: (t.map labelEncodeCol).map fillna0Col))
            = (numericData t).map (fun c => c.2.map (fun x => some (x.getD 0)))
          rw [List.map_congr_left (fun n hn => hskip n hn), ih hrest]
      | date nm cs =>
          show (numericColNames t).map
              (lookupNumCells ((fillna0Col (labelEncodeCol (Col.date nm cs)))
                :: (t.map labelEncodeCol).map fillna0Col))
            = (numericData t).map (fun c => c.2.map (fun x => some (x.getD 0)))
          rw [List.map_congr_left (fun n hn => hskip n hn), ih hrest]
      | num nm cs =>
          show (nm :: numericColNames t).map
              (lookupNumCells ((fillna0Col (labelEncodeCol (Col.num nm cs)))
                :: (t.map labelEncodeCol).map fillna0Col))
            = ((nm, cs) :: numericData t).map (fun c => c.2.map (fun x => some (x.getD 0)))
          rw [List.map_cons, List.map_cons]
          congr 1
          · show lookupNumCells (Col.num nm (cs.map (fun x => some (x.getD 0))) :: _) nm = _
            unfold lookupNumCells
            rw [List.find?_cons_of_pos]
            simp [Col.name]
          · rw [List.map_congr_left (fun n hn => hskip n hn), ih hrest]

/-- C3 (amended): the anomaly stage runs iff the frame has at least one
Numeric column — a frame with text columns but no numeric column is
passed through with count 0 — and (under pandas' unique column names) the
feature matrix is exactly the numeric data with missing values filled by
0: the label-encoded text columns contribute no feature column. -/
theorem anomaly_features_amended (d : Detector) (f : Frame) :
    (numericColNames f = [] → anomalyStage d f = (f, 0))
    ∧ ((f.map Col.name).Nodup →
        featureMatrix f = (List.range (numRows f)).map
          (fun i => (numericData f).map (fun c => (c.2.getD i none).getD 0))) := by
  constructor
  · intro h
    simp [anomalyStage, h]
  · intro h
    simp only [featureMatrix]
    rw [lookup_sel f h]
    apply List.map_congr_left
    intro i _
    rw [List.map_map]
    apply List.map_congr_left
    intro c _
    exact getD_fill c.2 i

/-- Witness for the amended C3: the stage skips the numeric-free frame,
and the feature matrix of the mixed-frame prefix is its numeric data. -/
theorem anomaly_features_amended_witness :
    anomalyStage d0 textOnlyFrame = (textOnlyFrame, 0)
    ∧ featureMatrix (preAnomaly true mixedFrame)
        = (List.range (numRows (preAnomaly true mixedFrame))).map
            (fun i => (numericData (preAnomaly true mixedFrame)).map
              (fun c => (c.2.getD i none).getD 0)) :=
  ⟨(anomaly_features_amended d0 textOnlyFrame).1 (by decide),
   (anomaly_features_amended d0 (preAnomaly true mixedFrame)).2 (by decide)⟩

/-- C3 counterexample: with only a text column the code skips the anomaly
stage (count 0, frame passed through) although the claimed feature set is
nonempty, so the claimed "still scored" fails; and on a numeric+text frame
the code's feature matrix has one column per row where the claimed matrix
(numeric plus encoded text) has two. -/
theorem anomaly_features_counterexample :
    claimed_anomaly_runs (preAnomaly true textOnlyFrame) = true
    ∧ numericColNames (preAnomaly true textOnlyFrame) = []
    ∧ (process_dataset d0 true textOnlyFrame).2.anomalies_detected = 0
    ∧ (process_dataset d0 true textOnlyFrame).1 = preAnomaly true textOnlyFrame
    ∧ (featureMatrix (preAnomaly true mixedFrame)).map List.length
        ≠ (claimed_feature_matrix (preAnomaly true mixedFrame)).map List.length := by
  decide

/-! ## C5: the correlation matrix -/

lemma pearsonPairs_comm (xs ys : List (Option ℚ)) :
    pearsonPairs ys xs = (pearsonPairs xs ys).map Prod.swap := by
  induction xs generalizing ys with
  | nil =>
      cases ys with
      | nil => rfl
      | cons b u => cases b <;> rfl
  | cons a t ih =>
      cases ys with
      | nil => cases a <;> rfl
      | cons b u => cases a <;> cases b <;> simp [pearsonPairs, ih]

lemma meanFst_swap (ps : List (ℚ × ℚ)) : meanFst (ps.map Prod.swap) = meanSnd ps := by
  simp [meanFst, meanSnd, List.map_map, Function.comp_def]

lemma meanSnd_swap (ps : List (ℚ × ℚ)) : meanSnd (ps.map Prod.swap) = meanFst ps := by
  simp [meanFst, meanSnd, List.map_map, Function.comp_def]

lemma sXY_swap (ps : List (ℚ × ℚ)) : sXY (ps.map Prod.swap) = sXY ps := by
  unfold sXY
  rw [meanFst_swap, meanSnd_swap, List.map_map]
  congr 1
  apply List.map_congr_left
  intro p _
  simp only [Function.comp_def, Prod.fst_swap, Prod.snd_swap]
  ring

lemma sXX_swap (ps : List (ℚ × ℚ)) : sXX (ps.map Prod.swap) = sYY ps := by
  unfold sXX sYY
  rw [meanFst_swap, List.map_map]
  congr 1

lemma sYY_swap (ps : List (ℚ × ℚ)) : sYY (ps.map Prod.swap) = sXX ps := by
  unfold sXX sYY
  rw [meanSnd_swap, List.map_map]
  congr 1

lemma pearsonRep_comm (xs ys : List (Option ℚ)) : pearsonRep ys xs = pearsonRep xs ys := by
  simp only [pearsonRep]
  rw [pearsonPairs_comm xs ys]
  simp only [List.length_map, sXX_swap, sYY_swap, sXY_swap]
  rw [mul_comm (sYY (pearsonPairs xs ys)) (sXX (pearsonPairs xs ys))]

lemma pearsonPairs_self (xs : List (Option ℚ)) :
    pearsonPairs xs xs = (xs.filterMap id).map (fun a => (a, a)) := by
  induction xs with
  | nil => rfl
  | cons a t ih => cases a <;> simp [pearsonPairs, ih]

lemma stats_dup (l : List ℚ) :
    sXY (l.map (fun a => (a, a))) = sXX (l.map (fun a => (a, a)))
    ∧ sYY (l.map (fun a => (a, a))) = sXX (l.map (fun a => (a, a))) := by
  have hm : meanSnd (l.map (fun a => (a, a))) = meanFst (l.map (fun a => (a, a))) := by
    simp [meanFst, meanSnd, List.map_map, Function.comp_def]
  constructor
  · unfold sXY sXX
    rw [hm, List.map_map, List.map_map]
    exact congrArg List.sum (List.map_congr_left fun a _ => rfl)
  · unfold sYY sXX
    rw [hm, List.map_map, List.map_map]
    exact congrArg List.sum (List.map_congr_left fun a _ => rfl)

lemma sXX_nonneg (ps : List (ℚ × ℚ)) : 0 ≤ sXX ps := by
  apply List.sum_nonneg
  intro x hx
  rw [List.mem_map] at hx
  obtain ⟨p, _, rfl⟩ := hx
  exact mul_self_nonneg _

/-- A self-correlation is either NaN (zero variance or no data) or
exactly 1.0. -/
lemma pearsonRep_self_cases (xs : List (Option ℚ)) :
    pearsonRep xs xs = none ∨ repOne (pearsonRep xs xs) = true := by
  have hd := stats_dup (xs.filterMap id)
  simp only [pearsonRep, pearsonPairs_self]
  split
  · exact Or.inl rfl
  · split
    · exact Or.inl rfl
    · rename_i hzero
      right
      rw [hd.1, hd.2]
      rw [hd.2] at hzero
      have hnn := sXX_nonneg ((xs.filterMap id).map (fun a => (a, a)))
      have hne : sXX ((xs.filterMap id).map (fun a => (a, a))) ≠ 0 := by
        intro h0
        exact hzero (by rw [h0]; ring)
      have hpos : 0 < sXX ((xs.filterMap id).map (fun a => (a, a))) :=
        lt_of_le_of_ne hnn (Ne.symm hne)
      simp [repOne, hpos]

/-- C5 (amended): the emitted correlation list is symmetric — it contains
(B, A, v) whenever it contains (A, B, v), with the same value — and is
empty with fewer than two numeric columns; the self-pair of every numeric
column is present with value exactly 1.0 *unless* the column is degenerate
(constant, single observation or no observation), in which case its value
is NaN, as pandas computes it. -/
theorem correlation_matrix_properties (f : Frame) :
    (∀ t ∈ get_correlation_matrix f,
       (⟨t.y, t.x, t.value⟩ : CorrTriple) ∈ get_correlation_matrix f)
    ∧ (2 ≤ (numericData f).length → ∀ p ∈ numericData f,
        (⟨p.1, p.1, pearsonRep p.2 p.2⟩ : CorrTriple) ∈ get_correlation_matrix f
        ∧ (pearsonRep p.2 p.2 = none ∨ repOne (pearsonRep p.2 p.2) = true))
    ∧ ((numericData f).length < 2 → get_correlation_matrix f = []) := by
  refine ⟨?_, ?_, ?_⟩
  · intro t ht
    simp only [get_correlation_matrix] at ht ⊢
    by_cases hlen : (numericData f).length < 2
    · rw [if_pos hlen] at ht
      simp at ht
    · rw [if_neg hlen] at ht ⊢
      rw [List.mem_flatMap] at ht ⊢
      obtain ⟨c1, h1, ht⟩ := ht
      rw [List.mem_map] at ht
      obtain ⟨c2, h2, rfl⟩ := ht
      exact ⟨c2, h2, List.mem_map.mpr ⟨c1, h1, by simp [pearsonRep_comm]⟩⟩
  · intro hge p hp
    refine ⟨?_, pearsonRep_self_cases p.2⟩
    simp only [get_correlation_matrix]
    rw [if_neg (by omega)]
    exact List.mem_flatMap.mpr ⟨p, hp, List.mem_map.mpr ⟨p, hp, rfl⟩⟩
  · intro hlt
    simp only [get_correlation_matrix]
    rw [if_pos hlt]

/-- Witness for the amended C5 at concrete frames. -/
theorem correlation_matrix_properties_witness :
    (⟨"A", "A", pearsonRep [some 1] [some 1]⟩ : CorrTriple)
        ∈ get_correlation_matrix [Col.num "A" [some 1], Col.num "B" [some 2]]
    ∧ get_correlation_matrix [Col.num "A" [some 1]] = [] :=
  ⟨((correlation_matrix_properties [Col.num "A" [some 1], Col.num "B" [some 2]]).2.1
      (by decide) ("A", [some 1]) (by decide)).1,
   (correlation_matrix_properties [Col.num "A" [some 1]]).2.2 (by decide)⟩

lemma getD_mem_or (l : List (Option ℚ)) (i : Nat) :
    l.getD i none ∈ l ∨ l.getD i none = none := by
  induction l generalizing i with
  | nil => exact Or.inr rfl
  | cons a t ih =>
      cases i with
      | zero => exact Or.inl (by simp)
      | succ k =>
          rw [List.getD_cons_succ]
          rcases ih k with h | h
          · exact Or.inl (List.mem_cons_of_mem a h)
          · exact Or.inr h

lemma sum_all_eq (l : List ℚ) (q : ℚ) (h : ∀ a ∈ l, a = q) :
    l.sum = l.length * q := by
  induction l with
  | nil => simp
  | cons a t ih =>
      rw [List.sum_cons, ih (fun b hb => h b (List.mem_cons_of_mem a hb)),
        h a (List.mem_cons_self a t)]
      simp only [List.length_cons]
      push_cast
      ring

/-- The self-correlation of a constant (possibly partially missing) column
is NaN. -/
lemma pearsonRep_const_none (cells : List (Option ℚ)) (q : ℚ)
    (h : ∀ x ∈ cells, x = some q ∨ x = none) :
    pearsonRep cells cells = none := by
  have hall : ∀ a ∈ cells.filterMap id, a = q := by
    intro a ha
    rw [List.mem_filterMap] at ha
    obtain ⟨x, hx, hxa⟩ := ha
    rcases h x hx with h1 | h1 <;> rw [h1] at hxa
    · exact (Option.some_inj.mp hxa).symm
    · simp at hxa
  simp only [pearsonRep, pearsonPairs_self]
  split
  · rfl
  · rename_i hlen
    have hL : (cells.filterMap id).length ≠ 0 := by simpa using hlen
    have hfst : ((cells.filterMap id).map (fun a => (a, a))).map Prod.fst
        = cells.filterMap id := by
      simp [List.map_map, Function.comp_def]
    have hmean : meanFst ((cells.filterMap id).map (fun a => (a, a))) = q := by
      unfold meanFst
      rw [hfst, List.length_map, sum_all_eq _ q hall, mul_comm, mul_div_assoc,
        div_self (by exact_mod_cast hL), mul_one]
    have hxx : sXX ((cells.filterMap id).map (fun a => (a, a))) = 0 := by
      unfold sXX
      apply List.sum_eq_zero
      intro x hx
      rw [List.mem_map] at hx
      obtain ⟨p, hp, rfl⟩ := hx
      rw [List.mem_map] at hp
      obtain ⟨a, ha, rfl⟩ := hp
      rw [hmean, hall a ha]
      ring
    rw [if_pos (by rw [hxx, zero_mul])]

/-- The anomaly stage on the coerced `constFrame` prefix keeps some subset
of the rows of each column (whatever the detector flags). -/
lemma anomalyStage_constFrame (d : Detector) :
    ∃ ks : List Nat,
      (anomalyStage d [Col.num "A" [some 1, some 1, some 1],
        Col.num "B" [some 1, some 2, some 9]]).1
      = [Col.num "A" (ks.map (fun i => [some (1 : ℚ), some 1, some 1].getD i none)),
         Col.num "B" (ks.map (fun i => [some (1 : ℚ), some 2, some 9].getD i none))] := by
  refine ⟨(List.range 3).filter
      (fun i => !((d (featureMatrix [Col.num "A" [some 1, some 1, some 1],
        Col.num "B" [some 1, some 2, some 9]])).getD i false)), ?_⟩
  simp only [anomalyStage]
  rw [if_neg (by decide)]
  rfl

/-- For any detector, the cleaned `constFrame` keeps "A" a numeric column
whose self-pair in the correlation matrix is NaN, never 1.0. -/
lemma correlation_self_pair_nan (d : Detector) :
    "A" ∈ numericColNames (process_dataset d true constFrame).1
    ∧ ∀ v, (⟨"A", "A", v⟩ : CorrTriple)
        ∈ (process_dataset d true constFrame).2.correlation_matrix → repOne v = false := by
  have hpre : preAnomaly true constFrame
      = [Col.num "A" [some 1, some 1, some 1], Col.num "B" [some 1, some 2, some 9]] := by
    decide
  obtain ⟨ks, hks⟩ := anomalyStage_constFrame d
  have hfst : (process_dataset d true constFrame).1
      = [Col.num "A" (ks.map (fun i => [some (1 : ℚ), some 1, some 1].getD i none)),
         Col.num "B" (ks.map (fun i => [some (1 : ℚ), some 2, some 9].getD i none))] := by
    rw [process_dataset_fst, hpre, hks]
  have hA : ∀ x ∈ ks.map (fun i => [some (1 : ℚ), some 1, some 1].getD i none),
      x = some 1 ∨ x = none := by
    intro x hx
    rw [List.mem_map] at hx
    obtain ⟨i, _, rfl⟩ := hx
    rcases getD_mem_or [some (1 : ℚ), some 1, some 1] i with h | h
    · left
      have hone : ∀ y ∈ [some (1 : ℚ), some 1, some 1], y = some 1 := by decide
      exact hone _ h
    · right
      exact h
  constructor
  · rw [hfst]
    simp [numericColNames]
  · intro v ht
    have hrepA : pearsonRep (ks.map (fun i => [some (1 : ℚ), some 1, some 1].getD i none))
        (ks.map (fun i => [some (1 : ℚ), some 1, some 1].getD i none)) = none :=
      pearsonRep_const_none _ 1 hA
    rw [process_corr, hpre, hks] at ht
    have hnd : numericData [Col.num "A" (ks.map (fun i => [some (1 : ℚ), some 1, some 1].getD i none)),
         Col.num "B" (ks.map (fun i => [some (1 : ℚ), some 2, some 9].getD i none))]
        = [("A", ks.map (fun i => [some (1 : ℚ), some 1, some 1].getD i none)),
           ("B", ks.map (fun i => [some (1 : ℚ), some 2, some 9].getD i none))] := rfl
    simp only [get_correlation_matrix, hnd] at ht
    rw [if_neg (by simp)] at ht
    simp only [List.flatMap_cons, List.flatMap_nil, List.map_cons, List.map_nil,
      List.append_nil, List.mem_append, List.mem_cons, List.not_mem_nil, or_false] at ht
    rcases ht with (h | h) | h | h
    · injection h with e1 e2 e3
      rw [e3, hrepA]
      rfl
    · injection h with e1 e2 e3
      exact absurd e2 (by decide)
    · injection h with e1 e2 e3
      exact absurd e1 (by decide)
    · injection h with e1 e2 e3
      exact absurd e1 (by decide)

/-- C5 counterexample: on the cleaned frame of `constFrame`, "A" is a
numeric column but no triple (A, A, v) carries the value 1.0 — the
constant column's self-correlation is NaN (this holds for every detector;
it is stated at the concrete `d0`). -/
theorem correlation_self_pair_counterexample :
    "A" ∈ numericColNames (process_dataset d0 true constFrame).1
    ∧ ∀ v, (⟨"A", "A", v⟩ : CorrTriple)
        ∈ (process_dataset d0 true constFrame).2.correlation_matrix → repOne v = false :=
  correlation_self_pair_nan d0

/-! ## C8: zero-row inputs -/

lemma numRows_emptyCols (f : Frame) (h : ∀ c ∈ f, colEmptyNonNum c) : numRows f = 0 := by
  cases f with
  | nil => rfl
  | cons c t =>
      have hc := h c (by simp)
      cases c with
      | obj n cs => simp only [colEmptyNonNum] at hc; simp [numRows, Col.len, hc]
      | num n cs => exact absurd hc (by simp [colEmptyNonNum])
      | date n cs => simp only [colEmptyNonNum] at hc; simp [numRows, Col.len, hc]

lemma emptyCols_textNorm (c : Col) (h : colEmptyNonNum c) :
    colEmptyNonNum (textNormCol c) := by
  cases c with
  | obj n cs => simp only [colEmptyNonNum] at h ⊢; simp [textNormCol, h]
  | num n cs => exact absurd h (by simp [colEmptyNonNum])
  | date n cs => exact h

lemma emptyCols_coerce (k : Nat) (c : Col) (h : colEmptyNonNum c) :
    colEmptyNonNum (coerceCol k c).1 := by
  cases c with
  | obj n cs =>
      simp only [colEmptyNonNum] at h
      subst h
      unfold coerceCol
      simp only [List.map_nil, List.countP_nil]
      split
      · rw [if_neg (by simp [ratioGt40])]
        simp [colEmptyNonNum]
      · rw [if_neg (by simp [ratioGt40])]
        simp [colEmptyNonNum]
  | num n cs => exact absurd h (by simp [colEmptyNonNum])
  | date n cs => exact h

lemma emptyCols_fuzzy (k : Nat) (c : Col) (h : colEmptyNonNum c) :
    colEmptyNonNum (fuzzyCol k c) := by
  cases c with
  | obj n cs =>
      simp only [colEmptyNonNum] at h
      subst h
      rw [show fuzzyCol k (Col.obj n [])
            = if fuzzySkip k [] then Col.obj n []
              else Col.obj n (applyCorrections (correctionsOf (value_counts [])) [])
          from rfl]
      split
      · simp [colEmptyNonNum]
      · simp [colEmptyNonNum, applyCorrections]
  | num n cs => exact absurd h (by simp [colEmptyNonNum])
  | date n cs => exact h

lemma emptyCols_dateImpute (c : Col) (h : colEmptyNonNum c) :
    colEmptyNonNum (dateImputeCol c) := by
  cases c with
  | obj n cs =>
      simp only [colEmptyNonNum] at h
      subst h
      unfold dateImputeCol dateOnlyCol
      split
      · simp [smart_parse_dates, imputeOnlyCol, colEmptyNonNum]
      · simp [imputeOnlyCol, colEmptyNonNum]
  | num n cs => exact absurd h (by simp [colEmptyNonNum])
  | date n cs =>
      simp only [colEmptyNonNum] at h
      subst h
      unfold dateImputeCol dateOnlyCol
      split
      · simp [smart_parse_dates, imputeOnlyCol, colEmptyNonNum]
      · simp [imputeOnlyCol, colEmptyNonNum]

lemma emptyCols_select (c : Col) (h : colEmptyNonNum c) :
    colEmptyNonNum (c.select []) := by
  cases c with
  | obj n cs => simp [Col.select, colEmptyNonNum]
  | num n cs => exact absurd h (by simp [colEmptyNonNum])
  | date n cs => simp [Col.select, colEmptyNonNum]

lemma emptyCols_pii (c : Col) (h : colEmptyNonNum c) :
    colEmptyNonNum (piiMaskCol c).1 := by
  cases c with
  | obj n cs =>
      simp only [colEmptyNonNum] at h
      subst h
      simp [piiMaskCol, colEmptyNonNum]
  | num n cs => exact absurd h (by simp [colEmptyNonNum])
  | date n cs => exact h

lemma numericColNames_nil_of (f : Frame) (h : ∀ c ∈ f, colEmptyNonNum c) :
    numericColNames f = [] := by
  rw [numericColNames, List.filterMap_eq_nil_iff]
  intro c hc
  have := h c hc
  cases c with
  | obj n cs => rfl
  | num n cs => exact absurd this (by simp [colEmptyNonNum])
  | date n cs => rfl

lemma numericData_nil_of (f : Frame) (h : ∀ c ∈ f, colEmptyNonNum c) :
    numericData f = [] := by
  rw [numericData, List.filterMap_eq_nil_iff]
  intro c hc
  have := h c hc
  cases c with
  | obj n cs => rfl
  | num n cs => exact absurd this (by simp [colEmptyNonNum])
  | date n cs => rfl

lemma emptyCols_map (g : Col → Col) (hg : ∀ c, colEmptyNonNum c → colEmptyNonNum (g c))
    (f : Frame) (h : ∀ c ∈ f, colEmptyNonNum c) : ∀ c ∈ f.map g, colEmptyNonNum c := by
  intro c hc
  rw [List.mem_map] at hc
  obtain ⟨c0, hc0, rfl⟩ := hc
  exact hg c0 (h c0 hc0)

/-- Every stage up to the anomaly detector preserves the
0-row/no-numeric-column shape. -/
lemma emptyCols_preAnomaly (m : Bool) (f0 : Frame) (h : ∀ c ∈ f0, colEmptyNonNum c) :
    ∀ c ∈ preAnomaly m f0, colEmptyNonNum c := by
  have h1 := emptyCols_map textNormCol emptyCols_textNorm f0 h
  have h2 := emptyCols_map _ (emptyCols_coerce (numRows (textNormStage f0)))
    (textNormStage f0) h1
  have h3 := emptyCols_map _ (emptyCols_fuzzy (numRows (coerceFrame (textNormStage f0))))
    (coerceFrame (textNormStage f0)) h2
  have h4 := emptyCols_map dateImputeCol emptyCols_dateImpute
    (fuzzyFrame (coerceFrame (textNormStage f0))) h3
  have h4' : ∀ c ∈ preDedup f0, colEmptyNonNum c := h4
  have hkeep : keepIdxs (preDedup f0) = [] := by
    simp [keepIdxs, numRows_emptyCols _ h4']
  have h5 : ∀ c ∈ (dedupStage (preDedup f0)).1, colEmptyNonNum c := by
    intro c hc
    simp only [dedupStage, selectRows, hkeep, List.mem_map] at hc
    obtain ⟨c0, hc0, rfl⟩ := hc
    exact emptyCols_select c0 (h4' c0 hc0)
  intro c hc
  unfold preAnomaly piiStage at hc
  split at hc
  · simp only [detect_and_mask_pii, List.mem_map] at hc
    obtain ⟨c0, hc0, rfl⟩ := hc
    exact emptyCols_pii c0 (h5 c0 hc0)
  · exact h5 c hc

lemma headerOnly_emptyCols (names : List String) :
    ∀ c ∈ headerOnlyFrame names, colEmptyNonNum c := by
  intro c hc
  simp only [headerOnlyFrame, List.mem_map] at hc
  obtain ⟨n, _, rfl⟩ := hc
  simp [colEmptyNonNum]

/-- C8: a parseable 0-row file (pandas types the columns of a header-only
file as object, so ingestion yields `headerOnlyFrame`) raises no exception
(the embedding is total), reports `quality_score = 0` and
`rows_cleaned = 0`, emits an empty correlation matrix, and attempts no
anomaly detection: the stage input has no feature columns, the stage is
the skip branch, and the whole result is independent of the detector. -/
theorem zero_row_behaviour (names : List String) (d1 d2 : Detector) (m : Bool) :
    (process_dataset d1 m (headerOnlyFrame names)).2.quality_score = 0
    ∧ (process_dataset d1 m (headerOnlyFrame names)).2.rows_cleaned = 0
    ∧ (process_dataset d1 m (headerOnlyFrame names)).2.correlation_matrix = []
    ∧ numericColNames (preAnomaly m (headerOnlyFrame names)) = []
    ∧ process_dataset d1 m (headerOnlyFrame names) = process_dataset d2 m (headerOnlyFrame names) := by
  have hpre := emptyCols_preAnomaly m (headerOnlyFrame names) (headerOnly_emptyCols names)
  have hnames : numericColNames (preAnomaly m (headerOnlyFrame names)) = [] :=
    numericColNames_nil_of _ hpre
  have hskip : ∀ d : Detector,
      anomalyStage d (preAnomaly m (headerOnlyFrame names))
        = (preAnomaly m (headerOnlyFrame names), 0) := by
    intro d
    simp [anomalyStage, hnames]
  have h0 : numRows (headerOnlyFrame names) = 0 :=
    numRows_emptyCols _ (headerOnly_emptyCols names)
  have hrows : numRows (anomalyStage d1 (preAnomaly m (headerOnlyFrame names))).1 = 0 := by
    rw [hskip d1]
    exact numRows_emptyCols _ hpre
  refine ⟨?_, ?_, ?_, hnames, ?_⟩
  · rw [process_quality, h0]
    simp [qualityScoreRaw, round2]
  · rw [process_rows_cleaned]
    exact hrows
  · rw [process_corr, hskip d1]
    have : numericData (preAnomaly m (headerOnlyFrame names)) = [] :=
      numericData_nil_of _ hpre
    simp [get_correlation_matrix, this]
  · rw [process_dataset_decomp d1, process_dataset_decomp d2, hskip d1, hskip d2]

end InfoPulse
